import Mathlib

/-!
Verification of the Keelson Rust SDK core (`src/sdks/rust/src`): envelope
codec, key addressing, and subject registry. Rust strings are modelled as
`List Char`, byte buffers as `List Nat` (each element < 256), and `i64`/`i32`
values as `Int` with explicit two's-complement wrapping where the code casts.
-/

/-- Error type of the SDK (`error.rs`, `enum Error`); only the variants
reachable from the modelled functions are included, each carrying the
formatted message text where the Rust variant carries a `String`. -/
inductive KeelsonError where
  | keyParseError (msg : List Char)
  | protobufDecodeError (msg : List Char)
  | yamlError (msg : List Char)
  | ioError (msg : List Char)
  | invalidTimestamp
  deriving DecidableEq

/-! ## Key addressing (`keys.rs`) -/

/-- Fuel-driven body of `str::replace`: scan left to right, replace each
non-overlapping occurrence of `pat` by `rep`, never rescanning replacement
text. Fuel makes the recursion structural; it is called with enough fuel to
cover the whole string. -/
def replaceAllAux : Nat → List Char → List Char → List Char → List Char
  | 0, s, _, _ => s
  | fuel + 1, s, pat, rep =>
    match s with
    | [] => []
    | c :: rest =>
      if pat ≠ [] ∧ pat.isPrefixOf (c :: rest) then
        rep ++ replaceAllAux fuel ((c :: rest).drop pat.length) pat rep
      else
        c :: replaceAllAux fuel rest pat rep

/-- Rust `str::replace(pat, rep)`: replace every non-overlapping occurrence of
`pat`, scanning left to right; replacement text is inserted verbatim and not
rescanned. -/
def replaceAll (s pat rep : List Char) : List Char :=
  replaceAllAux s.length s pat rep

/-- Rust `str::split('/')` (as collected into a vector of segments). -/
def splitSlash : List Char → List (List Char)
  | [] => [[]]
  | c :: rest =>
    if c = '/' then [] :: splitSlash rest
    else
      match splitSlash rest with
      | [] => [[c]]
      | h :: t => (c :: h) :: t

/-- Rust `[&str]::join("/")`. -/
def joinSlash : List (List Char) → List Char
  | [] => []
  | [p] => p
  | p :: ps => p ++ '/' :: joinSlash ps

/-- `KEELSON_PUB_SUB_KEY_FORMAT` from `keys.rs`. -/
def KEELSON_PUB_SUB_KEY_FORMAT : List Char :=
  ("\x7bbase_path\x7d/@v0/\x7bentity_id\x7d/pubsub/\x7bsubject\x7d/\x7bsource_id\x7d").toList

/-- `KEELSON_REQ_REP_KEY_FORMAT` from `keys.rs`. -/
def KEELSON_REQ_REP_KEY_FORMAT : List Char :=
  ("\x7bbase_path\x7d/@v0/\x7bentity_id\x7d/@rpc/\x7bprocedure\x7d/\x7bresponder_id\x7d").toList

/-- The placeholder `"\x7bbase_path\x7d"`. -/
def patBasePath : List Char := ("\x7bbase_path\x7d").toList

/-- The placeholder `"\x7bentity_id\x7d"`. -/
def patEntityId : List Char := ("\x7bentity_id\x7d").toList

/-- The placeholder `"\x7bsubject\x7d"`. -/
def patSubject : List Char := ("\x7bsubject\x7d").toList

/-- The placeholder `"\x7bsource_id\x7d"`. -/
def patSourceId : List Char := ("\x7bsource_id\x7d").toList

/-- The placeholder `"\x7bprocedure\x7d"`. -/
def patProcedure : List Char := ("\x7bprocedure\x7d").toList

/-- The placeholder `"\x7bresponder_id\x7d"`. -/
def patResponderId : List Char := ("\x7bresponder_id\x7d").toList

/-- `construct_pubsub_key` from `keys.rs`. The well-known-subject check only
drives a `log::warn!`; the registry lookup is passed in as the predicate
`well_known`, and the emitted warning is modelled as the second (`Bool`)
component of the result. The key itself is the sequential template
substitution, plus the `/@target/…` suffix when `target_id` is supplied. -/
def construct_pubsub_key (well_known : List Char → Bool)
    (base_path entity_id subject source_id : List Char)
    (target_id : Option (List Char)) : List Char × Bool :=
  let warned := !(well_known subject)
  let key :=
    replaceAll (replaceAll (replaceAll (replaceAll KEELSON_PUB_SUB_KEY_FORMAT
      patBasePath base_path) patEntityId entity_id) patSubject subject)
      patSourceId source_id
  match target_id with
  | some tid => (key ++ ("/@target/").toList ++ tid, warned)
  | none => (key, warned)

/-- `construct_rpc_key` from `keys.rs`: sequential template substitution, no
registry check and no optional suffix. -/
def construct_rpc_key (base_path entity_id procedure responder_id : List Char) : List Char :=
  replaceAll (replaceAll (replaceAll (replaceAll KEELSON_REQ_REP_KEY_FORMAT
    patBasePath base_path) patEntityId entity_id) patProcedure procedure)
    patResponderId responder_id

/-- Result of `parse_pubsub_key`. The Rust function returns a `HashMap`
holding exactly the four keys `base_path`, `entity_id`, `subject`,
`source_id`; the record fields are those four entries. -/
structure ParsedPubsubKey where
  base_path : List Char
  entity_id : List Char
  subject : List Char
  source_id : List Char
  deriving DecidableEq

/-- Result of `parse_rpc_key` (a `HashMap` with exactly these four keys in
Rust). -/
structure ParsedRpcKey where
  base_path : List Char
  entity_id : List Char
  procedure : List Char
  responder_id : List Char
  deriving DecidableEq

/-- `parse_pubsub_key` from `keys.rs`: split on `/`, require at least 6
parts, require `parts[1] == "@v0"` and `parts[3] == "pubsub"`, rejoin parts
5.. as the `source_id`. Indexing uses `getD` with default `[]`; the length
guard keeps every access in bounds. -/
def parse_pubsub_key (key : List Char) : Except KeelsonError ParsedPubsubKey :=
  if (splitSlash key).length < 6 then
    .error (.keyParseError (("Key \x27").toList ++ key ++
      ("\x27 does not have enough parts (expected at least 6)").toList))
  else if (splitSlash key).getD 1 [] ≠ ("@v0").toList ∨ (splitSlash key).getD 3 [] ≠ ("pubsub").toList then
    .error (.keyParseError (("Key \x27").toList ++ key ++
      ("\x27 does not match expected format \x27").toList ++
      KEELSON_PUB_SUB_KEY_FORMAT ++ ("\x27").toList))
  else
    .ok ⟨(splitSlash key).getD 0 [], (splitSlash key).getD 2 [], (splitSlash key).getD 4 [], joinSlash ((splitSlash key).drop 5)⟩

/-- `parse_rpc_key` from `keys.rs`: same shape as `parse_pubsub_key` with
discriminator `@rpc` at position 3 and components `procedure` /
`responder_id`. -/
def parse_rpc_key (key : List Char) : Except KeelsonError ParsedRpcKey :=
  if (splitSlash key).length < 6 then
    .error (.keyParseError (("Key \x27").toList ++ key ++
      ("\x27 does not have enough parts (expected at least 6)").toList))
  else if (splitSlash key).getD 1 [] ≠ ("@v0").toList ∨ (splitSlash key).getD 3 [] ≠ ("@rpc").toList then
    .error (.keyParseError (("Key \x27").toList ++ key ++
      ("\x27 does not match expected format \x27").toList ++
      KEELSON_REQ_REP_KEY_FORMAT ++ ("\x27").toList))
  else
    .ok ⟨(splitSlash key).getD 0 [], (splitSlash key).getD 2 [], (splitSlash key).getD 4 [], joinSlash ((splitSlash key).drop 5)⟩

/-! ## Subject registry (`subjects.rs`) -/

/-- The global `SUBJECTS` table: a map from subject name to protobuf type
name (Rust `HashMap<String, String>`), modelled as a lookup function. -/
def RegState : Type := String → Option String

/-- `HashMap::extend`: insert the parsed entries in order, each insertion
overwriting any earlier binding of the same subject. -/
def extend_subjects (st : RegState) (entries : List (String × String)) : RegState :=
  entries.foldl (fun acc kv => fun k => if k = kv.1 then some kv.2 else acc k) st

/-- `load_subjects` from `subjects.rs`. Modelled from the spec: the file read
(`std::fs::read_to_string`) and the YAML parse
(`serde_yaml::from_str::<HashMap<String,String>>`, via
`load_subjects_from_str`) are external to `src/`; their combined outcome is
the `parsed` argument — `.error` for an unreadable file or a source text
that is not a well-formed flat string-to-string YAML mapping, `.ok entries`
(with distinct subject keys, as a YAML mapping has) otherwise. On `.error`
the `?` operator returns before the table is touched; on `.ok` the table is
extended in place. -/
def load_subjects (parsed : Except KeelsonError (List (String × String)))
    (st : RegState) : Except KeelsonError Unit × RegState :=
  match parsed with
  | .error e => (.error e, st)
  | .ok entries => (.ok (), extend_subjects st entries)

/-! ## Lemmas about `replaceAll` and `splitSlash` -/

theorem replaceAllAux_irrel : ∀ (f₁ f₂ : Nat) (s pat rep : List Char),
    s.length ≤ f₁ → s.length ≤ f₂ →
    replaceAllAux f₁ s pat rep = replaceAllAux f₂ s pat rep := by
  intro f₁
  induction f₁ with
  | zero =>
    intro f₂ s pat rep h1 _
    have hs : s = [] := List.eq_nil_of_length_eq_zero (Nat.le_zero.mp h1)
    subst hs
    cases f₂ <;> rfl
  | succ f₁ ih =>
    intro f₂ s pat rep h1 h2
    cases s with
    | nil => cases f₂ <;> rfl
    | cons c rest =>
      cases f₂ with
      | zero => simp only [List.length_cons] at h2; omega
      | succ f₂ =>
        simp only [replaceAllAux]
        simp only [List.length_cons] at h1 h2
        by_cases hc : pat ≠ [] ∧ pat.isPrefixOf (c :: rest)
        · rw [if_pos hc, if_pos hc]
          have hlp : 0 < pat.length := List.length_pos.mpr hc.1
          have hd1 : ((c :: rest).drop pat.length).length ≤ f₁ := by
            simp only [List.length_drop, List.length_cons]; omega
          have hd2 : ((c :: rest).drop pat.length).length ≤ f₂ := by
            simp only [List.length_drop, List.length_cons]; omega
          rw [ih f₂ _ pat rep hd1 hd2]
        · rw [if_neg hc, if_neg hc]
          rw [ih f₂ rest pat rep (by omega) (by omega)]

theorem replaceAll_nil (pat rep : List Char) : replaceAll [] pat rep = [] := rfl

theorem replaceAll_cons (c : Char) (rest pat rep : List Char) :
    replaceAll (c :: rest) pat rep =
      if pat ≠ [] ∧ pat.isPrefixOf (c :: rest) then
        rep ++ replaceAll ((c :: rest).drop pat.length) pat rep
      else
        c :: replaceAll rest pat rep := by
  show replaceAllAux ((c :: rest).length) (c :: rest) pat rep = _
  simp only [List.length_cons, replaceAllAux]
  by_cases hc : pat ≠ [] ∧ pat.isPrefixOf (c :: rest)
  · rw [if_pos hc, if_pos hc]
    unfold replaceAll
    have hlp : 0 < pat.length := List.length_pos.mpr hc.1
    rw [replaceAllAux_irrel rest.length ((c :: rest).drop pat.length).length _ pat rep
      (by simp only [List.length_drop, List.length_cons]; omega) le_rfl]
  · rw [if_neg hc, if_neg hc]
    rfl

theorem replaceAll_head_match (pat rep rest : List Char) (hp : pat ≠ []) :
    replaceAll (pat ++ rest) pat rep = rep ++ replaceAll rest pat rep := by
  cases pat with
  | nil => exact absurd rfl hp
  | cons p ps =>
    rw [List.cons_append, replaceAll_cons]
    have hpre : (p :: ps).isPrefixOf (p :: (ps ++ rest)) = true :=
      List.isPrefixOf_iff_prefix.mpr (List.prefix_append (p :: ps) rest)
    rw [if_pos ⟨hp, hpre⟩]
    congr 1
    rw [show p :: (ps ++ rest) = (p :: ps) ++ rest from rfl, List.drop_left]

theorem replaceAll_self (pat rep : List Char) (hp : pat ≠ []) :
    replaceAll pat pat rep = rep := by
  have h := replaceAll_head_match pat rep [] hp
  rwa [List.append_nil, replaceAll_nil, List.append_nil] at h

theorem replaceAll_of_not_infix (s pat rep : List Char) (h : ¬ pat <:+: s) :
    replaceAll s pat rep = s := by
  induction s with
  | nil => rfl
  | cons c rest ih =>
    rw [replaceAll_cons, if_neg, ih (fun hin => h (List.infix_cons hin))]
    rintro ⟨_, hpre⟩
    obtain ⟨t, ht⟩ := List.isPrefixOf_iff_prefix.mp hpre
    exact h ⟨[], t, by simpa using ht⟩

theorem prefix_of_append_slash {pat x y : List Char} (hs : '/' ∉ pat)
    (h : pat <+: x ++ '/' :: y) : pat <+: x := by
  rcases le_or_lt pat.length x.length with hle | hlt
  · have heq := List.prefix_iff_eq_take.mp h
    rw [List.take_append_eq_append_take, Nat.sub_eq_zero_of_le hle, List.take_zero,
      List.append_nil] at heq
    rw [heq]
    exact List.take_prefix _ _
  · exfalso
    have heq := List.prefix_iff_eq_take.mp h
    rw [List.take_append_eq_append_take, List.take_of_length_le (Nat.le_of_lt hlt)] at heq
    obtain ⟨k, hk⟩ : ∃ k, pat.length - x.length = k + 1 :=
      ⟨pat.length - x.length - 1, by omega⟩
    rw [hk, List.take_succ_cons] at heq
    apply hs
    rw [heq]
    exact List.mem_append_right _ (List.mem_cons_self _ _)

theorem replaceAll_slash_cons (pat rep y : List Char) (hs : '/' ∉ pat) :
    replaceAll ('/' :: y) pat rep = '/' :: replaceAll y pat rep := by
  rw [replaceAll_cons, if_neg]
  rintro ⟨hp, hpre⟩
  have hpre' := List.isPrefixOf_iff_prefix.mp hpre
  cases pat with
  | nil => exact hp rfl
  | cons p ps =>
    rw [List.cons_prefix_cons] at hpre'
    exact hs (hpre'.1 ▸ List.mem_cons_self p ps)

theorem replaceAll_append_slash_aux (pat rep : List Char) (hs : '/' ∉ pat) :
    ∀ (n : Nat) (x y : List Char), x.length ≤ n →
    replaceAll (x ++ '/' :: y) pat rep =
      replaceAll x pat rep ++ '/' :: replaceAll y pat rep := by
  intro n
  induction n with
  | zero =>
    intro x y hx
    have hxe : x = [] := List.eq_nil_of_length_eq_zero (Nat.le_zero.mp hx)
    subst hxe
    rw [List.nil_append, replaceAll_nil, List.nil_append, replaceAll_slash_cons pat rep y hs]
  | succ n ih =>
    intro x y hx
    cases x with
    | nil =>
      rw [List.nil_append, replaceAll_nil, List.nil_append, replaceAll_slash_cons pat rep y hs]
    | cons c x' =>
      simp only [List.length_cons] at hx
      have hiff : (pat.isPrefixOf (c :: (x' ++ '/' :: y)) = true) ↔
          (pat.isPrefixOf (c :: x') = true) := by
        rw [ List.isPrefixOf_iff_prefix, List.isPrefixOf_iff_prefix]
        constructor
        · intro h
          exact prefix_of_append_slash hs (by rwa [show (c :: x') ++ '/' :: y = c :: (x' ++ '/' :: y) from rfl])
        · intro h
          exact h.trans (List.prefix_append (c :: x') ('/' :: y))
      rw [List.cons_append, replaceAll_cons, replaceAll_cons c x' pat rep]
      by_cases hc : pat ≠ [] ∧ pat.isPrefixOf (c :: x')
      · rw [if_pos ⟨hc.1, hiff.mpr hc.2⟩, if_pos hc]
        have hlp : 0 < pat.length := List.length_pos.mpr hc.1
        have hlen : pat.length ≤ (c :: x').length :=
          ( List.isPrefixOf_iff_prefix.mp hc.2).length_le
        rw [show c :: (x' ++ '/' :: y) = (c :: x') ++ '/' :: y from rfl,
          List.drop_append_of_le_length hlen,
          ih ((c :: x').drop pat.length) y
            (by simp only [List.length_drop, List.length_cons]; omega),
          List.append_assoc]
      · rw [if_neg (fun h => hc ⟨h.1, hiff.mp h.2⟩), if_neg hc]
        rw [ih x' y (by omega), List.cons_append]

theorem replaceAll_append_slash (pat rep x y : List Char) (hs : '/' ∉ pat) :
    replaceAll (x ++ '/' :: y) pat rep =
      replaceAll x pat rep ++ '/' :: replaceAll y pat rep :=
  replaceAll_append_slash_aux pat rep hs x.length x y le_rfl

theorem replaceAll_no_slash_aux (pat rep : List Char) (hr : '/' ∉ rep) :
    ∀ (n : Nat) (s : List Char), s.length ≤ n → '/' ∉ s → '/' ∉ replaceAll s pat rep := by
  intro n
  induction n with
  | zero =>
    intro s h1 h2
    have hs : s = [] := List.eq_nil_of_length_eq_zero (Nat.le_zero.mp h1)
    subst hs
    rw [replaceAll_nil]
    exact h2
  | succ n ih =>
    intro s h1 h2
    cases s with
    | nil =>
      rw [replaceAll_nil]
      exact List.not_mem_nil '/'
    | cons c rest =>
      simp only [List.length_cons] at h1
      rw [replaceAll_cons]
      by_cases hc : pat ≠ [] ∧ pat.isPrefixOf (c :: rest)
      · rw [if_pos hc]
        intro hmem
        rcases List.mem_append.mp hmem with h | h
        · exact hr h
        · have hlp : 0 < pat.length := List.length_pos.mpr hc.1
          exact ih ((c :: rest).drop pat.length)
            (by simp only [List.length_drop, List.length_cons]; omega)
            (fun hx => h2 (List.drop_subset _ _ hx)) h
      · rw [if_neg hc]
        intro hmem
        rcases List.mem_cons.mp hmem with h | h
        · exact h2 (h ▸ List.mem_cons_self c rest)
        · exact ih rest (by omega) (fun hx => h2 (List.mem_cons_of_mem _ hx)) h

theorem replaceAll_no_slash (s pat rep : List Char) (hr : '/' ∉ rep) (hsf : '/' ∉ s) :
    '/' ∉ replaceAll s pat rep :=
  replaceAll_no_slash_aux pat rep hr s.length s le_rfl hsf

theorem splitSlash_ne_nil (s : List Char) : splitSlash s ≠ [] := by
  induction s with
  | nil => simp [splitSlash]
  | cons c rest ih =>
    simp only [splitSlash]
    split
    · simp
    · split <;> simp

theorem splitSlash_append_slash (x y : List Char) (hx : '/' ∉ x) :
    splitSlash (x ++ '/' :: y) = x :: splitSlash y := by
  induction x with
  | nil => simp [splitSlash]
  | cons c x' ih =>
    have hc : ¬ c = '/' := fun h => hx (h ▸ List.mem_cons_self c x')
    rw [List.cons_append]
    simp only [splitSlash, if_neg hc]
    rw [ih (fun h => hx (List.mem_cons_of_mem _ h))]

theorem splitSlash_no_slash (x : List Char) (hx : '/' ∉ x) : splitSlash x = [x] := by
  induction x with
  | nil => rfl
  | cons c x' ih =>
    have hc : ¬ c = '/' := fun h => hx (h ▸ List.mem_cons_self c x')
    simp only [splitSlash, if_neg hc, ih (fun h => hx (List.mem_cons_of_mem _ h))]

/-! ## Shape of constructed keys -/

/-- The literal version segment `"@v0"`. -/
def segV0 : List Char := ("@v0").toList

/-- The literal pub/sub discriminator segment `"pubsub"`. -/
def segPubsub : List Char := ("pubsub").toList

/-- The literal RPC discriminator segment `"@rpc"`. -/
def segRpc : List Char := ("@rpc").toList

/-- The literal target marker segment `"@target"`. -/
def segTarget : List Char := ("@target").toList

theorem pubsub_format_decomp :
    KEELSON_PUB_SUB_KEY_FORMAT =
      patBasePath ++ '/' :: (segV0 ++ '/' :: (patEntityId ++ '/' ::
        (segPubsub ++ '/' :: (patSubject ++ '/' :: patSourceId)))) := by decide

theorem rpc_format_decomp :
    KEELSON_REQ_REP_KEY_FORMAT =
      patBasePath ++ '/' :: (segV0 ++ '/' :: (patEntityId ++ '/' ::
        (segRpc ++ '/' :: (patProcedure ++ '/' :: patResponderId)))) := by decide

/-- The pub/sub template substitution chain, decomposed by segments: segment 1
is always `@v0` and segment 3 always `pubsub`; earlier-substituted components
may get placeholder occurrences rewritten by the later substitutions. -/
theorem pubsub_chain (a e s d : List Char) :
    replaceAll (replaceAll (replaceAll (replaceAll KEELSON_PUB_SUB_KEY_FORMAT
        patBasePath a) patEntityId e) patSubject s) patSourceId d
    = replaceAll (replaceAll (replaceAll a patEntityId e) patSubject s) patSourceId d
      ++ '/' :: (segV0 ++ '/' :: (replaceAll (replaceAll e patSubject s) patSourceId d
      ++ '/' :: (segPubsub ++ '/' :: (replaceAll s patSourceId d ++ '/' :: d)))) := by
  have h1 : replaceAll KEELSON_PUB_SUB_KEY_FORMAT patBasePath a
      = a ++ '/' :: (segV0 ++ '/' :: (patEntityId ++ '/' ::
        (segPubsub ++ '/' :: (patSubject ++ '/' :: patSourceId)))) := by
    rw [pubsub_format_decomp,
      replaceAll_append_slash patBasePath a patBasePath
        (segV0 ++ '/' :: (patEntityId ++ '/' :: (segPubsub ++ '/' ::
          (patSubject ++ '/' :: patSourceId)))) (by decide),
      replaceAll_self patBasePath a (by decide),
      replaceAll_of_not_infix
        (segV0 ++ '/' :: (patEntityId ++ '/' :: (segPubsub ++ '/' ::
          (patSubject ++ '/' :: patSourceId)))) patBasePath a (by decide)]
  have h2 : replaceAll (a ++ '/' :: (segV0 ++ '/' :: (patEntityId ++ '/' ::
        (segPubsub ++ '/' :: (patSubject ++ '/' :: patSourceId))))) patEntityId e
      = replaceAll a patEntityId e ++ '/' :: (segV0 ++ '/' :: (e ++ '/' ::
        (segPubsub ++ '/' :: (patSubject ++ '/' :: patSourceId)))) := by
    rw [replaceAll_append_slash patEntityId e a
        (segV0 ++ '/' :: (patEntityId ++ '/' :: (segPubsub ++ '/' ::
          (patSubject ++ '/' :: patSourceId)))) (by decide),
      replaceAll_append_slash patEntityId e segV0
        (patEntityId ++ '/' :: (segPubsub ++ '/' :: (patSubject ++ '/' :: patSourceId)))
        (by decide),
      replaceAll_of_not_infix segV0 patEntityId e (by decide),
      replaceAll_append_slash patEntityId e patEntityId
        (segPubsub ++ '/' :: (patSubject ++ '/' :: patSourceId)) (by decide),
      replaceAll_self patEntityId e (by decide),
      replaceAll_of_not_infix (segPubsub ++ '/' :: (patSubject ++ '/' :: patSourceId))
        patEntityId e (by decide)]
  have h3 : ∀ x : List Char, replaceAll (x ++ '/' :: (segV0 ++ '/' :: (e ++ '/' ::
        (segPubsub ++ '/' :: (patSubject ++ '/' :: patSourceId))))) patSubject s
      = replaceAll x patSubject s ++ '/' :: (segV0 ++ '/' :: (replaceAll e patSubject s
        ++ '/' :: (segPubsub ++ '/' :: (s ++ '/' :: patSourceId)))) := by
    intro x
    rw [replaceAll_append_slash patSubject s x
        (segV0 ++ '/' :: (e ++ '/' :: (segPubsub ++ '/' ::
          (patSubject ++ '/' :: patSourceId)))) (by decide),
      replaceAll_append_slash patSubject s segV0
        (e ++ '/' :: (segPubsub ++ '/' :: (patSubject ++ '/' :: patSourceId))) (by decide),
      replaceAll_of_not_infix segV0 patSubject s (by decide),
      replaceAll_append_slash patSubject s e
        (segPubsub ++ '/' :: (patSubject ++ '/' :: patSourceId)) (by decide),
      replaceAll_append_slash patSubject s segPubsub
        (patSubject ++ '/' :: patSourceId) (by decide),
      replaceAll_of_not_infix segPubsub patSubject s (by decide),
      replaceAll_append_slash patSubject s patSubject patSourceId (by decide),
      replaceAll_self patSubject s (by decide),
      replaceAll_of_not_infix patSourceId patSubject s (by decide)]
  have h4 : ∀ x y : List Char, replaceAll (x ++ '/' :: (segV0 ++ '/' :: (y ++ '/' ::
        (segPubsub ++ '/' :: (s ++ '/' :: patSourceId))))) patSourceId d
      = replaceAll x patSourceId d ++ '/' :: (segV0 ++ '/' :: (replaceAll y patSourceId d
        ++ '/' :: (segPubsub ++ '/' :: (replaceAll s patSourceId d ++ '/' :: d)))) := by
    intro x y
    rw [replaceAll_append_slash patSourceId d x
        (segV0 ++ '/' :: (y ++ '/' :: (segPubsub ++ '/' :: (s ++ '/' :: patSourceId))))
        (by decide),
      replaceAll_append_slash patSourceId d segV0
        (y ++ '/' :: (segPubsub ++ '/' :: (s ++ '/' :: patSourceId))) (by decide),
      replaceAll_of_not_infix segV0 patSourceId d (by decide),
      replaceAll_append_slash patSourceId d y
        (segPubsub ++ '/' :: (s ++ '/' :: patSourceId)) (by decide),
      replaceAll_append_slash patSourceId d segPubsub (s ++ '/' :: patSourceId) (by decide),
      replaceAll_of_not_infix segPubsub patSourceId d (by decide),
      replaceAll_append_slash patSourceId d s patSourceId (by decide),
      replaceAll_self patSourceId d (by decide)]
  rw [h1, h2, h3 (replaceAll a patEntityId e),
    h4 (replaceAll (replaceAll a patEntityId e) patSubject s) (replaceAll e patSubject s)]

/-- The RPC template substitution chain, decomposed by segments. -/
theorem rpc_chain (a e p r : List Char) :
    construct_rpc_key a e p r
    = replaceAll (replaceAll (replaceAll a patEntityId e) patProcedure p) patResponderId r
      ++ '/' :: (segV0 ++ '/' :: (replaceAll (replaceAll e patProcedure p) patResponderId r
      ++ '/' :: (segRpc ++ '/' :: (replaceAll p patResponderId r ++ '/' :: r)))) := by
  show replaceAll (replaceAll (replaceAll (replaceAll KEELSON_REQ_REP_KEY_FORMAT
    patBasePath a) patEntityId e) patProcedure p) patResponderId r = _
  have h1 : replaceAll KEELSON_REQ_REP_KEY_FORMAT patBasePath a
      = a ++ '/' :: (segV0 ++ '/' :: (patEntityId ++ '/' ::
        (segRpc ++ '/' :: (patProcedure ++ '/' :: patResponderId)))) := by
    rw [rpc_format_decomp,
      replaceAll_append_slash patBasePath a patBasePath
        (segV0 ++ '/' :: (patEntityId ++ '/' :: (segRpc ++ '/' ::
          (patProcedure ++ '/' :: patResponderId)))) (by decide),
      replaceAll_self patBasePath a (by decide),
      replaceAll_of_not_infix
        (segV0 ++ '/' :: (patEntityId ++ '/' :: (segRpc ++ '/' ::
          (patProcedure ++ '/' :: patResponderId)))) patBasePath a (by decide)]
  have h2 : replaceAll (a ++ '/' :: (segV0 ++ '/' :: (patEntityId ++ '/' ::
        (segRpc ++ '/' :: (patProcedure ++ '/' :: patResponderId))))) patEntityId e
      = replaceAll a patEntityId e ++ '/' :: (segV0 ++ '/' :: (e ++ '/' ::
        (segRpc ++ '/' :: (patProcedure ++ '/' :: patResponderId)))) := by
    rw [replaceAll_append_slash patEntityId e a
        (segV0 ++ '/' :: (patEntityId ++ '/' :: (segRpc ++ '/' ::
          (patProcedure ++ '/' :: patResponderId)))) (by decide),
      replaceAll_append_slash patEntityId e segV0
        (patEntityId ++ '/' :: (segRpc ++ '/' :: (patProcedure ++ '/' :: patResponderId)))
        (by decide),
      replaceAll_of_not_infix segV0 patEntityId e (by decide),
      replaceAll_append_slash patEntityId e patEntityId
        (segRpc ++ '/' :: (patProcedure ++ '/' :: patResponderId)) (by decide),
      replaceAll_self patEntityId e (by decide),
      replaceAll_of_not_infix (segRpc ++ '/' :: (patProcedure ++ '/' :: patResponderId))
        patEntityId e (by decide)]
  have h3 : ∀ x : List Char, replaceAll (x ++ '/' :: (segV0 ++ '/' :: (e ++ '/' ::
        (segRpc ++ '/' :: (patProcedure ++ '/' :: patResponderId))))) patProcedure p
      = replaceAll x patProcedure p ++ '/' :: (segV0 ++ '/' :: (replaceAll e patProcedure p
        ++ '/' :: (segRpc ++ '/' :: (p ++ '/' :: patResponderId)))) := by
    intro x
    rw [replaceAll_append_slash patProcedure p x
        (segV0 ++ '/' :: (e ++ '/' :: (segRpc ++ '/' ::
          (patProcedure ++ '/' :: patResponderId)))) (by decide),
      replaceAll_append_slash patProcedure p segV0
        (e ++ '/' :: (segRpc ++ '/' :: (patProcedure ++ '/' :: patResponderId))) (by decide),
      replaceAll_of_not_infix segV0 patProcedure p (by decide),
      replaceAll_append_slash patProcedure p e
        (segRpc ++ '/' :: (patProcedure ++ '/' :: patResponderId)) (by decide),
      replaceAll_append_slash patProcedure p segRpc
        (patProcedure ++ '/' :: patResponderId) (by decide),
      replaceAll_of_not_infix segRpc patProcedure p (by decide),
      replaceAll_append_slash patProcedure p patProcedure patResponderId (by decide),
      replaceAll_self patProcedure p (by decide),
      replaceAll_of_not_infix patResponderId patProcedure p (by decide)]
  have h4 : ∀ x y : List Char, replaceAll (x ++ '/' :: (segV0 ++ '/' :: (y ++ '/' ::
        (segRpc ++ '/' :: (p ++ '/' :: patResponderId))))) patResponderId r
      = replaceAll x patResponderId r ++ '/' :: (segV0 ++ '/' ::
        (replaceAll y patResponderId r ++ '/' :: (segRpc ++ '/' ::
          (replaceAll p patResponderId r ++ '/' :: r)))) := by
    intro x y
    rw [replaceAll_append_slash patResponderId r x
        (segV0 ++ '/' :: (y ++ '/' :: (segRpc ++ '/' :: (p ++ '/' :: patResponderId))))
        (by decide),
      replaceAll_append_slash patResponderId r segV0
        (y ++ '/' :: (segRpc ++ '/' :: (p ++ '/' :: patResponderId))) (by decide),
      replaceAll_of_not_infix segV0 patResponderId r (by decide),
      replaceAll_append_slash patResponderId r y
        (segRpc ++ '/' :: (p ++ '/' :: patResponderId)) (by decide),
      replaceAll_append_slash patResponderId r segRpc (p ++ '/' :: patResponderId)
        (by decide),
      replaceAll_of_not_infix segRpc patResponderId r (by decide),
      replaceAll_append_slash patResponderId r p patResponderId (by decide),
      replaceAll_self patResponderId r (by decide)]
  rw [h1, h2, h3 (replaceAll a patEntityId e),
    h4 (replaceAll (replaceAll a patEntityId e) patProcedure p) (replaceAll e patProcedure p)]

/-! ## Parsing assembled keys -/

theorem splitSlash_six (p1 p2 p3 p4 p5 p6 : List Char)
    (h1 : '/' ∉ p1) (h2 : '/' ∉ p2) (h3 : '/' ∉ p3) (h4 : '/' ∉ p4)
    (h5 : '/' ∉ p5) (h6 : '/' ∉ p6) :
    splitSlash (p1 ++ '/' :: (p2 ++ '/' :: (p3 ++ '/' :: (p4 ++ '/' ::
      (p5 ++ '/' :: p6))))) = [p1, p2, p3, p4, p5, p6] := by
  rw [splitSlash_append_slash p1 _ h1, splitSlash_append_slash p2 _ h2,
    splitSlash_append_slash p3 _ h3, splitSlash_append_slash p4 _ h4,
    splitSlash_append_slash p5 _ h5, splitSlash_no_slash p6 h6]

theorem splitSlash_eight (p1 p2 p3 p4 p5 p6 p7 p8 : List Char)
    (h1 : '/' ∉ p1) (h2 : '/' ∉ p2) (h3 : '/' ∉ p3) (h4 : '/' ∉ p4)
    (h5 : '/' ∉ p5) (h6 : '/' ∉ p6) (h7 : '/' ∉ p7) (h8 : '/' ∉ p8) :
    splitSlash (p1 ++ '/' :: (p2 ++ '/' :: (p3 ++ '/' :: (p4 ++ '/' ::
      (p5 ++ '/' :: (p6 ++ '/' :: (p7 ++ '/' :: p8))))))) =
      [p1, p2, p3, p4, p5, p6, p7, p8] := by
  rw [splitSlash_append_slash p1 _ h1, splitSlash_append_slash p2 _ h2,
    splitSlash_append_slash p3 _ h3, splitSlash_append_slash p4 _ h4,
    splitSlash_append_slash p5 _ h5, splitSlash_append_slash p6 _ h6,
    splitSlash_append_slash p7 _ h7, splitSlash_no_slash p8 h8]

theorem parse_pubsub_of_six (b e s d : List Char)
    (hb : '/' ∉ b) (he : '/' ∉ e) (hs : '/' ∉ s) (hd : '/' ∉ d) :
    parse_pubsub_key (b ++ '/' :: (segV0 ++ '/' :: (e ++ '/' ::
      (segPubsub ++ '/' :: (s ++ '/' :: d))))) = .ok ⟨b, e, s, d⟩ := by
  unfold parse_pubsub_key
  rw [splitSlash_six b segV0 e segPubsub s d hb (by decide) he (by decide) hs hd]
  simp [joinSlash, segV0, segPubsub]

theorem parse_pubsub_of_eight (b e s d t : List Char)
    (hb : '/' ∉ b) (he : '/' ∉ e) (hs : '/' ∉ s) (hd : '/' ∉ d) (ht : '/' ∉ t) :
    parse_pubsub_key (b ++ '/' :: (segV0 ++ '/' :: (e ++ '/' :: (segPubsub ++ '/' ::
      (s ++ '/' :: (d ++ '/' :: (segTarget ++ '/' :: t))))))) =
      .ok ⟨b, e, s, d ++ '/' :: (segTarget ++ '/' :: t)⟩ := by
  unfold parse_pubsub_key
  rw [splitSlash_eight b segV0 e segPubsub s d segTarget t hb (by decide) he (by decide)
    hs hd (by decide) ht]
  simp [joinSlash, segV0, segPubsub]

theorem parse_rpc_of_six (b e p r : List Char)
    (hb : '/' ∉ b) (he : '/' ∉ e) (hp : '/' ∉ p) (hr : '/' ∉ r) :
    parse_rpc_key (b ++ '/' :: (segV0 ++ '/' :: (e ++ '/' ::
      (segRpc ++ '/' :: (p ++ '/' :: r))))) = .ok ⟨b, e, p, r⟩ := by
  unfold parse_rpc_key
  rw [splitSlash_six b segV0 e segRpc p r hb (by decide) he (by decide) hp hr]
  simp [joinSlash, segV0, segRpc]

/-! ## Claim theorems: key addressing -/

/-- C10: for every input tuple in which none of `base_path`, `entity_id`,
`subject` contains any of the literal substrings `\x7bentity_id\x7d`,
`\x7bsubject\x7d`, `\x7bsource_id\x7d`, `construct_pubsub_key` with no target
equals the plain concatenation
`base_path ++ "/@v0/" ++ entity_id ++ "/pubsub/" ++ subject ++ "/" ++ source_id`:
the sequential placeholder replacement does not rewrite placeholder-like text
inside earlier-substituted components. -/
theorem claim_C10_template_concat (wk : List Char → Bool) (b e s d : List Char)
    (hb1 : ¬ patEntityId <:+: b) (hb2 : ¬ patSubject <:+: b) (hb3 : ¬ patSourceId <:+: b)
    (he1 : ¬ patSubject <:+: e) (he2 : ¬ patSourceId <:+: e)
    (hs1 : ¬ patSourceId <:+: s) :
    (construct_pubsub_key wk b e s d none).1 =
      b ++ ("/@v0/").toList ++ e ++ ("/pubsub/").toList ++ s ++ ("/").toList ++ d := by
  show replaceAll (replaceAll (replaceAll (replaceAll KEELSON_PUB_SUB_KEY_FORMAT
    patBasePath b) patEntityId e) patSubject s) patSourceId d = _
  rw [pubsub_chain b e s d,
    replaceAll_of_not_infix b patEntityId e hb1,
    replaceAll_of_not_infix b patSubject s hb2,
    replaceAll_of_not_infix b patSourceId d hb3,
    replaceAll_of_not_infix e patSubject s he1,
    replaceAll_of_not_infix e patSourceId d he2,
    replaceAll_of_not_infix s patSourceId d hs1]
  have h1 : ("/@v0/").toList = '/' :: segV0 ++ [Char.ofNat 47] := by decide
  have h2 : ("/pubsub/").toList = '/' :: segPubsub ++ [Char.ofNat 47] := by decide
  have h3 : ("/").toList = [Char.ofNat 47] := by decide
  have h4 : Char.ofNat 47 = '/' := by decide
  rw [h1, h2, h3, h4]
  simp [List.append_assoc]

/-- C10 witness: the theorem at a concrete placeholder-free input. -/
theorem claim_C10_witness :
    (construct_pubsub_key (fun _ => true) (("base").toList) (("ent").toList)
      (("subj").toList) (("src").toList) none).1 =
      ("base").toList ++ ("/@v0/").toList ++ ("ent").toList ++ ("/pubsub/").toList ++
        ("subj").toList ++ ("/").toList ++ ("src").toList :=
  claim_C10_template_concat (fun _ => true) (("base").toList) (("ent").toList)
    (("subj").toList) (("src").toList) (by decide) (by decide) (by decide) (by decide)
    (by decide) (by decide)

/-- C6: `construct_pubsub_key` is total — it returns a key for every input
tuple, even when the subject is not in the registry, where it merely flags
the advisory warning; the key never depends on the registry; the
`/@target/…` suffix is appended exactly when `target_id` is supplied; and
on the concrete example the key is `b/@v0/e/pubsub/s/src/@target/t`. -/
theorem claim_C6_construct_total_target :
    (∀ (wk wk' : List Char → Bool) (b e s d : List Char) (tgt : Option (List Char)),
      (construct_pubsub_key wk b e s d tgt).1 = (construct_pubsub_key wk' b e s d tgt).1) ∧
    (∀ (wk : List Char → Bool) (b e s d : List Char) (tgt : Option (List Char)),
      (construct_pubsub_key wk b e s d tgt).2 = !(wk s)) ∧
    (∀ (wk : List Char → Bool) (b e s d t : List Char),
      (construct_pubsub_key wk b e s d (some t)).1 =
        (construct_pubsub_key wk b e s d none).1 ++ ("/@target/").toList ++ t) ∧
    (construct_pubsub_key (fun _ => false) (("b").toList) (("e").toList) (("s").toList)
      (("src").toList) (some (("t").toList))).1 =
      ("b/@v0/e/pubsub/s/src/@target/t").toList := by
  refine ⟨fun wk wk' b e s d tgt => ?_, fun wk b e s d tgt => ?_,
    fun wk b e s d t => rfl, by decide⟩
  · cases tgt <;> rfl
  · cases tgt <;> rfl

/-- A component free of the pub/sub placeholder substrings that are
substituted after it could have been inserted. -/
def pubsubPlaceholderFree (x : List Char) : Prop :=
  ¬ patEntityId <:+: x ∧ ¬ patSubject <:+: x ∧ ¬ patSourceId <:+: x

/-- A component free of the RPC placeholder substrings that are substituted
after it could have been inserted. -/
def rpcPlaceholderFree (x : List Char) : Prop :=
  ¬ patEntityId <:+: x ∧ ¬ patProcedure <:+: x ∧ ¬ patResponderId <:+: x

instance (x : List Char) : Decidable (pubsubPlaceholderFree x) := by
  unfold pubsubPlaceholderFree; infer_instance

instance (x : List Char) : Decidable (rpcPlaceholderFree x) := by
  unfold rpcPlaceholderFree; infer_instance

instance {ε α : Type _} [DecidableEq ε] [DecidableEq α] : DecidableEq (Except ε α) := fun a b =>
  match a, b with
  | .error e, .error f =>
    if h : e = f then .isTrue (congrArg Except.error h)
    else .isFalse (fun hh => h (Except.error.inj hh))
  | .error _, .ok _ => .isFalse Except.noConfusion
  | .ok _, .error _ => .isFalse Except.noConfusion
  | .ok x, .ok y =>
    if h : x = y then .isTrue (congrArg Except.ok h)
    else .isFalse (fun hh => h (Except.ok.inj hh))

/-- C2 counterexample: the component tuple
`("\x7bentity_id\x7d", "e", "s", "d")` is made of non-empty `/`-free strings,
yet the round trip does not return it — the later `\x7bentity_id\x7d`
substitution rewrites the already-substituted base path, and the parse
returns base path `"e"`. -/
theorem claim_C2_counterexample :
    ('/' ∉ ("\x7bentity_id\x7d").toList ∧ ("\x7bentity_id\x7d").toList ≠ [] ∧
      '/' ∉ ("e").toList ∧ ("e").toList ≠ [] ∧
      '/' ∉ ("s").toList ∧ ("s").toList ≠ [] ∧
      '/' ∉ ("d").toList ∧ ("d").toList ≠ []) ∧
    parse_pubsub_key ((construct_pubsub_key (fun _ => false)
        (("\x7bentity_id\x7d").toList) (("e").toList) (("s").toList) (("d").toList)
        none).1) =
      .ok ⟨("e").toList, ("e").toList, ("s").toList, ("d").toList⟩ ∧
    ("e").toList ≠ ("\x7bentity_id\x7d").toList := by decide

/-- C2 (amended): for every component tuple of non-empty `/`-free strings
that additionally contain no placeholder substring of the respective
template, the pub/sub round trip returns exactly the tuple, and so does the
RPC round trip. -/
theorem claim_C2_roundtrip_amended (wk : List Char → Bool) (b e c d : List Char)
    (hb : '/' ∉ b) (hbn : b ≠ []) (he : '/' ∉ e) (hen : e ≠ [])
    (hc : '/' ∉ c) (hcn : c ≠ []) (hd : '/' ∉ d) (hdn : d ≠ [])
    (hbp : pubsubPlaceholderFree b) (hep : pubsubPlaceholderFree e)
    (hcp : pubsubPlaceholderFree c) (hdp : pubsubPlaceholderFree d)
    (hbr : rpcPlaceholderFree b) (her : rpcPlaceholderFree e)
    (hcr : rpcPlaceholderFree c) (hdr : rpcPlaceholderFree d) :
    parse_pubsub_key ((construct_pubsub_key wk b e c d none).1) = .ok ⟨b, e, c, d⟩ ∧
    parse_rpc_key (construct_rpc_key b e c d) = .ok ⟨b, e, c, d⟩ := by
  constructor
  · have hkey : (construct_pubsub_key wk b e c d none).1 =
        b ++ '/' :: (segV0 ++ '/' :: (e ++ '/' :: (segPubsub ++ '/' :: (c ++ '/' :: d)))) := by
      show replaceAll (replaceAll (replaceAll (replaceAll KEELSON_PUB_SUB_KEY_FORMAT
        patBasePath b) patEntityId e) patSubject c) patSourceId d = _
      rw [pubsub_chain b e c d,
        replaceAll_of_not_infix b patEntityId e hbp.1,
        replaceAll_of_not_infix b patSubject c hbp.2.1,
        replaceAll_of_not_infix b patSourceId d hbp.2.2,
        replaceAll_of_not_infix e patSubject c hep.2.1,
        replaceAll_of_not_infix e patSourceId d hep.2.2,
        replaceAll_of_not_infix c patSourceId d hcp.2.2]
    rw [hkey]
    exact parse_pubsub_of_six b e c d hb he hc hd
  · have hkey : construct_rpc_key b e c d =
        b ++ '/' :: (segV0 ++ '/' :: (e ++ '/' :: (segRpc ++ '/' :: (c ++ '/' :: d)))) := by
      rw [rpc_chain b e c d,
        replaceAll_of_not_infix b patEntityId e hbr.1,
        replaceAll_of_not_infix b patProcedure c hbr.2.1,
        replaceAll_of_not_infix b patResponderId d hbr.2.2,
        replaceAll_of_not_infix e patProcedure c her.2.1,
        replaceAll_of_not_infix e patResponderId d her.2.2,
        replaceAll_of_not_infix c patResponderId d hcr.2.2]
    rw [hkey]
    exact parse_rpc_of_six b e c d hb he hc hd

/-- C2 witness: the amended round trip at a concrete tuple. -/
theorem claim_C2_witness :
    parse_pubsub_key ((construct_pubsub_key (fun _ => true) (("base").toList)
        (("ent").toList) (("subj").toList) (("src").toList) none).1) =
      .ok ⟨("base").toList, ("ent").toList, ("subj").toList, ("src").toList⟩ ∧
    parse_rpc_key (construct_rpc_key (("base").toList) (("ent").toList) (("subj").toList)
        (("src").toList)) =
      .ok ⟨("base").toList, ("ent").toList, ("subj").toList, ("src").toList⟩ :=
  claim_C2_roundtrip_amended (fun _ => true) (("base").toList) (("ent").toList)
    (("subj").toList) (("src").toList) (by decide) (by decide) (by decide) (by decide)
    (by decide) (by decide) (by decide) (by decide) (by decide) (by decide) (by decide)
    (by decide) (by decide) (by decide) (by decide) (by decide)

/-- C9: with a target supplied, the parse succeeds and returns a `source_id`
equal to `source_id ++ "/@target/" ++ target` — the target is absorbed into
the source component, so the round trip does not return the original
`source_id`. -/
theorem claim_C9_target_absorbed (wk : List Char → Bool) (b e s d t : List Char)
    (hb : '/' ∉ b) (hbn : b ≠ []) (he : '/' ∉ e) (hen : e ≠ [])
    (hs : '/' ∉ s) (hsn : s ≠ []) (hd : '/' ∉ d) (hdn : d ≠ []) (ht : '/' ∉ t) :
    ∃ res, parse_pubsub_key ((construct_pubsub_key wk b e s d (some t)).1) = .ok res ∧
      res.source_id = d ++ ("/@target/").toList ++ t ∧ res.source_id ≠ d := by
  have hA : '/' ∉ replaceAll (replaceAll (replaceAll b patEntityId e) patSubject s)
      patSourceId d :=
    replaceAll_no_slash _ _ _ hd
      (replaceAll_no_slash _ _ _ hs (replaceAll_no_slash _ _ _ he hb))
  have hE : '/' ∉ replaceAll (replaceAll e patSubject s) patSourceId d :=
    replaceAll_no_slash _ _ _ hd (replaceAll_no_slash _ _ _ hs he)
  have hS : '/' ∉ replaceAll s patSourceId d :=
    replaceAll_no_slash _ _ _ hd hs
  have htail : d ++ ("/@target/").toList ++ t = d ++ '/' :: (segTarget ++ '/' :: t) := by
    have h1 : ("/@target/").toList = '/' :: segTarget ++ [Char.ofNat 47] := by decide
    have h2 : Char.ofNat 47 = '/' := by decide
    rw [h1, h2]
    simp [List.append_assoc]
  have hkey : (construct_pubsub_key wk b e s d (some t)).1 =
      replaceAll (replaceAll (replaceAll b patEntityId e) patSubject s) patSourceId d
      ++ '/' :: (segV0 ++ '/' :: (replaceAll (replaceAll e patSubject s) patSourceId d
      ++ '/' :: (segPubsub ++ '/' :: (replaceAll s patSourceId d
      ++ '/' :: (d ++ '/' :: (segTarget ++ '/' :: t)))))) := by
    show replaceAll (replaceAll (replaceAll (replaceAll KEELSON_PUB_SUB_KEY_FORMAT
      patBasePath b) patEntityId e) patSubject s) patSourceId d
      ++ ("/@target/").toList ++ t = _
    rw [pubsub_chain b e s d]
    have h1 : ("/@target/").toList = '/' :: segTarget ++ [Char.ofNat 47] := by decide
    have h2 : Char.ofNat 47 = '/' := by decide
    rw [h1, h2]
    simp [List.append_assoc]
  refine ⟨⟨replaceAll (replaceAll (replaceAll b patEntityId e) patSubject s) patSourceId d,
    replaceAll (replaceAll e patSubject s) patSourceId d,
    replaceAll s patSourceId d,
    d ++ '/' :: (segTarget ++ '/' :: t)⟩, ?_, ?_, ?_⟩
  · rw [hkey]
    exact parse_pubsub_of_eight _ _ _ d t hA hE hS hd ht
  · exact htail.symm
  · intro hcontra
    have := congrArg List.length hcontra
    simp only [List.length_append, List.length_cons] at this
    omega

/-- C9 witness: the theorem at a concrete tuple and target. -/
theorem claim_C9_witness :
    ∃ res, parse_pubsub_key ((construct_pubsub_key (fun _ => true) (("b").toList)
        (("e").toList) (("s").toList) (("src").toList) (some (("t").toList))).1) =
        .ok res ∧
      res.source_id = ("src").toList ++ ("/@target/").toList ++ ("t").toList ∧
      res.source_id ≠ ("src").toList :=
  claim_C9_target_absorbed (fun _ => true) (("b").toList) (("e").toList) (("s").toList)
    (("src").toList) (("t").toList) (by decide) (by decide) (by decide) (by decide)
    (by decide) (by decide) (by decide) (by decide) (by decide)

/-- Full case analysis of `parse_pubsub_key`: the error cases (with the
offending key inside the message) and the success case. -/
theorem parse_pubsub_spec (key : List Char) :
    ((∃ msg, parse_pubsub_key key = .error (.keyParseError msg) ∧ key <:+: msg) ↔
      ((splitSlash key).length < 6 ∨ (splitSlash key).getD 1 [] ≠ ("@v0").toList ∨
        (splitSlash key).getD 3 [] ≠ ("pubsub").toList)) ∧
    (¬ ((splitSlash key).length < 6 ∨ (splitSlash key).getD 1 [] ≠ ("@v0").toList ∨
        (splitSlash key).getD 3 [] ≠ ("pubsub").toList) →
      parse_pubsub_key key = .ok ⟨(splitSlash key).getD 0 [], (splitSlash key).getD 2 [],
        (splitSlash key).getD 4 [], joinSlash ((splitSlash key).drop 5)⟩) := by
  by_cases h1 : (splitSlash key).length < 6
  · have hparse : parse_pubsub_key key = .error (.keyParseError (("Key \x27").toList ++
        key ++ ("\x27 does not have enough parts (expected at least 6)").toList)) := by
      unfold parse_pubsub_key
      rw [if_pos h1]
    exact ⟨⟨fun _ => Or.inl h1,
      fun _ => ⟨_, hparse, ("Key \x27").toList,
        ("\x27 does not have enough parts (expected at least 6)").toList,
        by simp [List.append_assoc]⟩⟩,
      fun hc => absurd (Or.inl h1) hc⟩
  · by_cases h2 : (splitSlash key).getD 1 [] ≠ ("@v0").toList ∨
        (splitSlash key).getD 3 [] ≠ ("pubsub").toList
    · have hparse : parse_pubsub_key key = .error (.keyParseError (("Key \x27").toList ++
          key ++ ("\x27 does not match expected format \x27").toList ++
          KEELSON_PUB_SUB_KEY_FORMAT ++ ("\x27").toList)) := by
        unfold parse_pubsub_key
        rw [if_neg h1, if_pos h2]
      exact ⟨⟨fun _ => Or.inr h2,
        fun _ => ⟨_, hparse, ("Key \x27").toList,
          ("\x27 does not match expected format \x27").toList ++
            KEELSON_PUB_SUB_KEY_FORMAT ++ ("\x27").toList,
          by simp [List.append_assoc]⟩⟩,
        fun hc => absurd (Or.inr h2) hc⟩
    · have hok : parse_pubsub_key key = .ok ⟨(splitSlash key).getD 0 [],
          (splitSlash key).getD 2 [], (splitSlash key).getD 4 [],
          joinSlash ((splitSlash key).drop 5)⟩ := by
        unfold parse_pubsub_key
        rw [if_neg h1, if_neg h2]
      refine ⟨⟨?_, ?_⟩, fun _ => hok⟩
      · rintro ⟨msg, hmsg, -⟩
        rw [hok] at hmsg
        simp at hmsg
      · intro hc
        rcases hc with hA | hBC
        · exact absurd hA h1
        · exact absurd hBC h2

/-- Full case analysis of `parse_rpc_key`, mirroring `parse_pubsub_spec`. -/
theorem parse_rpc_spec (key : List Char) :
    ((∃ msg, parse_rpc_key key = .error (.keyParseError msg) ∧ key <:+: msg) ↔
      ((splitSlash key).length < 6 ∨ (splitSlash key).getD 1 [] ≠ ("@v0").toList ∨
        (splitSlash key).getD 3 [] ≠ ("@rpc").toList)) ∧
    (¬ ((splitSlash key).length < 6 ∨ (splitSlash key).getD 1 [] ≠ ("@v0").toList ∨
        (splitSlash key).getD 3 [] ≠ ("@rpc").toList) →
      parse_rpc_key key = .ok ⟨(splitSlash key).getD 0 [], (splitSlash key).getD 2 [],
        (splitSlash key).getD 4 [], joinSlash ((splitSlash key).drop 5)⟩) := by
  by_cases h1 : (splitSlash key).length < 6
  · have hparse : parse_rpc_key key = .error (.keyParseError (("Key \x27").toList ++
        key ++ ("\x27 does not have enough parts (expected at least 6)").toList)) := by
      unfold parse_rpc_key
      rw [if_pos h1]
    exact ⟨⟨fun _ => Or.inl h1,
      fun _ => ⟨_, hparse, ("Key \x27").toList,
        ("\x27 does not have enough parts (expected at least 6)").toList,
        by simp [List.append_assoc]⟩⟩,
      fun hc => absurd (Or.inl h1) hc⟩
  · by_cases h2 : (splitSlash key).getD 1 [] ≠ ("@v0").toList ∨
        (splitSlash key).getD 3 [] ≠ ("@rpc").toList
    · have hparse : parse_rpc_key key = .error (.keyParseError (("Key \x27").toList ++
          key ++ ("\x27 does not match expected format \x27").toList ++
          KEELSON_REQ_REP_KEY_FORMAT ++ ("\x27").toList)) := by
        unfold parse_rpc_key
        rw [if_neg h1, if_pos h2]
      exact ⟨⟨fun _ => Or.inr h2,
        fun _ => ⟨_, hparse, ("Key \x27").toList,
          ("\x27 does not match expected format \x27").toList ++
            KEELSON_REQ_REP_KEY_FORMAT ++ ("\x27").toList,
          by simp [List.append_assoc]⟩⟩,
        fun hc => absurd (Or.inr h2) hc⟩
    · have hok : parse_rpc_key key = .ok ⟨(splitSlash key).getD 0 [],
          (splitSlash key).getD 2 [], (splitSlash key).getD 4 [],
          joinSlash ((splitSlash key).drop 5)⟩ := by
        unfold parse_rpc_key
        rw [if_neg h1, if_neg h2]
      refine ⟨⟨?_, ?_⟩, fun _ => hok⟩
      · rintro ⟨msg, hmsg, -⟩
        rw [hok] at hmsg
        simp at hmsg
      · intro hc
        rcases hc with hA | hBC
        · exact absurd hA h1
        · exact absurd hBC h2

/-- C3: `parse_pubsub_key key` fails with a `KeyParseError` whose message
contains the offending key exactly when the key split on `/` has fewer than
6 segments, or segment 1 is not `@v0`, or segment 3 is not `pubsub`;
otherwise it succeeds with `base_path` = segment 0, `entity_id` = segment 2,
`subject` = segment 4, and `source_id` = segments 5.. rejoined with `/`.
The same holds for `parse_rpc_key` with discriminator `@rpc`. -/
theorem claim_C3_parse_validation (key : List Char) :
    ((∃ msg, parse_pubsub_key key = .error (.keyParseError msg) ∧ key <:+: msg) ↔
      ((splitSlash key).length < 6 ∨ (splitSlash key).getD 1 [] ≠ ("@v0").toList ∨
        (splitSlash key).getD 3 [] ≠ ("pubsub").toList)) ∧
    (¬ ((splitSlash key).length < 6 ∨ (splitSlash key).getD 1 [] ≠ ("@v0").toList ∨
        (splitSlash key).getD 3 [] ≠ ("pubsub").toList) →
      parse_pubsub_key key = .ok ⟨(splitSlash key).getD 0 [], (splitSlash key).getD 2 [],
        (splitSlash key).getD 4 [], joinSlash ((splitSlash key).drop 5)⟩) ∧
    ((∃ msg, parse_rpc_key key = .error (.keyParseError msg) ∧ key <:+: msg) ↔
      ((splitSlash key).length < 6 ∨ (splitSlash key).getD 1 [] ≠ ("@v0").toList ∨
        (splitSlash key).getD 3 [] ≠ ("@rpc").toList)) ∧
    (¬ ((splitSlash key).length < 6 ∨ (splitSlash key).getD 1 [] ≠ ("@v0").toList ∨
        (splitSlash key).getD 3 [] ≠ ("@rpc").toList) →
      parse_rpc_key key = .ok ⟨(splitSlash key).getD 0 [], (splitSlash key).getD 2 [],
        (splitSlash key).getD 4 [], joinSlash ((splitSlash key).drop 5)⟩) :=
  ⟨(parse_pubsub_spec key).1, (parse_pubsub_spec key).2,
    (parse_rpc_spec key).1, (parse_rpc_spec key).2⟩

/-- C3 witness: a malformed key is rejected with the key in the message, and
a well-formed key parses to its segments. -/
theorem claim_C3_witness :
    (∃ msg, parse_rpc_key (("invalid/key").toList) = .error (.keyParseError msg) ∧
      ("invalid/key").toList <:+: msg) ∧
    parse_pubsub_key (("base/@v0/ent/pubsub/subj/src/sub").toList) =
      .ok ⟨("base").toList, ("ent").toList, ("subj").toList, ("src/sub").toList⟩ := by
  constructor
  · exact (claim_C3_parse_validation (("invalid/key").toList)).2.2.1.mpr (by decide)
  · have h := (claim_C3_parse_validation (("base/@v0/ent/pubsub/subj/src/sub").toList)).2.1
      (by decide)
    exact h.trans (by decide)

/-! ## Claim theorems: subject registry -/

theorem extend_subjects_nil (st : RegState) : extend_subjects st [] = st := rfl

theorem extend_subjects_cons (st : RegState) (a : String × String)
    (rest : List (String × String)) :
    extend_subjects st (a :: rest) =
      extend_subjects (fun k => if k = a.1 then some a.2 else st k) rest := rfl

theorem extend_subjects_not_mem :
    ∀ (entries : List (String × String)) (st : RegState) (k : String),
    k ∉ entries.map Prod.fst → extend_subjects st entries k = st k := by
  intro entries
  induction entries with
  | nil => intro st k _; rfl
  | cons a rest ih =>
    intro st k hk
    rw [extend_subjects_cons]
    have hk1 : k ≠ a.1 := fun h => hk (by rw [List.map_cons]; exact h ▸ List.mem_cons_self _ _)
    have hk2 : k ∉ rest.map Prod.fst := fun h => hk (by rw [List.map_cons]; exact List.mem_cons_of_mem _ h)
    rw [ih _ k hk2]
    simp [hk1]

theorem extend_subjects_mem :
    ∀ (entries : List (String × String)) (st : RegState) (k v : String),
    (entries.map Prod.fst).Nodup → (k, v) ∈ entries →
    extend_subjects st entries k = some v := by
  intro entries
  induction entries with
  | nil => intro st k v _ hmem; exact absurd hmem (List.not_mem_nil _)
  | cons a rest ih =>
    intro st k v hnodup hmem
    rw [List.map_cons, List.nodup_cons] at hnodup
    rw [extend_subjects_cons]
    rcases List.mem_cons.mp hmem with h | h
    · have hk : k = a.1 := congrArg Prod.fst h
      have hv : v = a.2 := congrArg Prod.snd h
      rw [extend_subjects_not_mem rest _ k (hk ▸ hnodup.1)]
      simp [hk, hv]
    · exact ih _ k v hnodup.2 h

/-- C7: when the source is unreadable or is not a well-formed flat
string-to-string YAML mapping, `load_subjects` returns the error and the
registry table is left exactly as it was: no key is added, removed or
modified. -/
theorem claim_C7_load_atomic (st : RegState)
    (parsed : Except KeelsonError (List (String × String))) (e : KeelsonError)
    (h : parsed = .error e) :
    (load_subjects parsed st).1 = .error e ∧
    ∀ k, (load_subjects parsed st).2 k = st k := by
  subst h
  exact ⟨rfl, fun _ => rfl⟩

/-- C7 witness: a failed parse leaves a concrete registry untouched. -/
theorem claim_C7_witness :
    (load_subjects (.error (.yamlError (("mapping values are not allowed here").toList)))
      (fun k => if k = "raw" then some "keelson.TimestampedBytes" else none)).1 =
      .error (.yamlError (("mapping values are not allowed here").toList)) ∧
    (load_subjects (.error (.yamlError (("mapping values are not allowed here").toList)))
      (fun k => if k = "raw" then some "keelson.TimestampedBytes" else none)).2 ("raw") =
      some "keelson.TimestampedBytes" := by
  have h := claim_C7_load_atomic
    (fun k => if k = "raw" then some "keelson.TimestampedBytes" else none)
    (.error (.yamlError (("mapping values are not allowed here").toList)))
    (.yamlError (("mapping values are not allowed here").toList)) rfl
  exact ⟨h.1, (h.2 ("raw")).trans (by decide)⟩

/-- C8: a successful load merges additively: every entry of the parsed
mapping is present afterwards with the mapping's value, every other subject
keeps its previous binding, and no subject that was present is removed. -/
theorem claim_C8_merge_additive (st : RegState) (entries : List (String × String))
    (hnodup : (entries.map Prod.fst).Nodup) :
    (load_subjects (.ok entries) st).1 = .ok () ∧
    (∀ k v, (k, v) ∈ entries → (load_subjects (.ok entries) st).2 k = some v) ∧
    (∀ k, k ∉ entries.map Prod.fst → (load_subjects (.ok entries) st).2 k = st k) ∧
    (∀ k v, st k = some v → ∃ v', (load_subjects (.ok entries) st).2 k = some v') := by
  refine ⟨rfl, fun k v hkv => extend_subjects_mem entries st k v hnodup hkv,
    fun k hk => extend_subjects_not_mem entries st k hk, fun k v hkv => ?_⟩
  by_cases hmem : k ∈ entries.map Prod.fst
  · rcases List.mem_map.mp hmem with ⟨⟨k', v'⟩, hin, hfst⟩
    subst hfst
    exact ⟨v', extend_subjects_mem entries st _ v' hnodup hin⟩
  · exact ⟨v, (extend_subjects_not_mem entries st k hmem).trans hkv⟩

/-- C8 witness: loading two entries over a one-entry registry overwrites the
colliding subject, adds the new one, and keeps the rest reachable. -/
theorem claim_C8_witness :
    (load_subjects (.ok [("raw", "other.Type"), ("new_subject", "new.Type")])
      (fun k => if k = "raw" then some "keelson.TimestampedBytes" else none)).1 = .ok () ∧
    (load_subjects (.ok [("raw", "other.Type"), ("new_subject", "new.Type")])
      (fun k => if k = "raw" then some "keelson.TimestampedBytes" else none)).2 ("raw") =
      some "other.Type" ∧
    (load_subjects (.ok [("raw", "other.Type"), ("new_subject", "new.Type")])
      (fun k => if k = "raw" then some "keelson.TimestampedBytes" else none)).2
      ("new_subject") = some "new.Type" ∧
    (load_subjects (.ok [("raw", "other.Type"), ("new_subject", "new.Type")])
      (fun k => if k = "raw" then some "keelson.TimestampedBytes" else none)).2
      ("location_fix") = none := by
  have h := claim_C8_merge_additive
    (fun k => if k = "raw" then some "keelson.TimestampedBytes" else none)
    [("raw", "other.Type"), ("new_subject", "new.Type")] (by decide)
  refine ⟨h.1, h.2.1 ("raw") ("other.Type") (by decide),
    h.2.1 ("new_subject") ("new.Type") (by decide),
    (h.2.2.1 ("location_fix") (by decide)).trans (by decide)⟩

/-! ## Envelope codec (`envelope.rs`) and the protobuf wire format

The wire schema (spec section 6): message with field 1 = optional
`Timestamp \x7bseconds : int64, nanos : int32\x7d`, field 2 = `bytes payload`.
Modelled from the spec: the `prost` encode/decode of this message (external
to `src/`) is embedded below as the standard protobuf wire codec — varint
keys and values, length-delimited submessages and bytes, default-valued
fields skipped on encode, unknown fields skipped on decode, later
occurrences merged over earlier ones. -/

/-- Two's-complement wrap into `i64` (Rust release-mode `i64` arithmetic). -/
def wrap64 (n : Int) : Int := (n + 2 ^ 63) % 2 ^ 64 - 2 ^ 63

/-- Two's-complement wrap into `i32` (Rust `as i32`). -/
def wrap32 (n : Int) : Int := (n + 2 ^ 31) % 2 ^ 32 - 2 ^ 31

/-- Rust `as u64` on a signed value (two's-complement reinterpretation). -/
def toU64 (n : Int) : Nat := (n % 2 ^ 64).toNat

/-- Reinterpret a `u64` wire value as `i64` (prost's int64 decoding). -/
def u64ToI64 (v : Nat) : Int := if v < 2 ^ 63 then (v : Int) else (v : Int) - 2 ^ 64

/-- Reinterpret a `u64` wire value as `i32` (prost's int32 decoding:
truncate, then sign). -/
def u64ToI32 (v : Nat) : Int :=
  if v % 2 ^ 32 < 2 ^ 31 then ((v % 2 ^ 32 : Nat) : Int)
  else ((v % 2 ^ 32 : Nat) : Int) - 2 ^ 32

/-- `prost_types::Timestamp`: `seconds : i64`, `nanos : i32`. -/
structure Timestamp where
  seconds : Int
  nanos : Int
  deriving DecidableEq

/-- `nanos_to_timestamp` from `envelope.rs`: `secs = nanos / 1_000_000_000`
(Rust `i64` division truncates toward zero, `Int.tdiv`),
`nanos = (nanos % 1_000_000_000) as i32` (`Int.tmod`, cast to `i32`).
Always returns `Ok`. -/
def nanos_to_timestamp (nanos : Int) : Except KeelsonError Timestamp :=
  .ok { seconds := nanos.tdiv 1000000000, nanos := wrap32 (nanos.tmod 1000000000) }

/-- `timestamp_to_nanos` from `envelope.rs`:
`timestamp.seconds * 1_000_000_000 + timestamp.nanos as i64`, in wrapping
`i64` arithmetic. Always returns `Ok`. -/
def timestamp_to_nanos (ts : Timestamp) : Except KeelsonError Int :=
  .ok (wrap64 (ts.seconds * 1000000000 + ts.nanos))

/-- Fuel-driven base-128 varint encoder (little-endian groups, continuation
bit on every byte but the last); fuel `n + 1` always suffices. -/
def encodeVarintAux : Nat → Nat → List Nat
  | 0, _ => []
  | fuel + 1, n => if n < 128 then [n] else (n % 128 + 128) :: encodeVarintAux fuel (n / 128)

/-- Protobuf varint encoding of a `u64` value. -/
def encodeVarint (n : Nat) : List Nat := encodeVarintAux (n + 1) n

/-- Varint decoder with prost's 10-byte limit: the tenth byte must have a
clear continuation bit and value at most 1, so accepted values fit in 64
bits. `rem` is the number of bytes still allowed. -/
def decodeVarintAux : Nat → List Nat → Option (Nat × List Nat)
  | _, [] => none
  | 0, _ :: _ => none
  | rem + 1, b :: rest =>
    if b < 128 then
      if rem = 0 ∧ 1 < b then none else some (b, rest)
    else
      match decodeVarintAux rem rest with
      | some (n, r) => some ((b - 128) + 128 * n, r)
      | none => none

/-- Protobuf varint decoding (prost `decode_varint`). -/
def decodeVarint (bytes : List Nat) : Option (Nat × List Nat) :=
  decodeVarintAux 10 bytes

/-- Take `n` bytes off the front, failing on underflow (prost's remaining-
length check for length-delimited fields). -/
def readBytes (n : Nat) (bytes : List Nat) : Option (List Nat × List Nat) :=
  if n ≤ bytes.length then some (bytes.take n, bytes.drop n) else none

/-- prost encoding of a `Timestamp`: field 1 (`int64 seconds`, key `0x08`)
and field 2 (`int32 nanos`, key `0x10`), each skipped when zero (the proto3
default), each value sign-extended to `u64` and varint-encoded. -/
def encodeTimestamp (ts : Timestamp) : List Nat :=
  (if ts.seconds = 0 then [] else 8 :: encodeVarint (toU64 ts.seconds)) ++
    (if ts.nanos = 0 then [] else 16 :: encodeVarint (toU64 ts.nanos))

/-- The `Envelope` message (`proto` `core.Envelope`): field 1 = optional
`Timestamp enclosed_at`, field 2 = `bytes payload`. -/
structure Envelope where
  enclosed_at : Option Timestamp
  payload : List Nat
  deriving DecidableEq

/-- prost encoding of an `Envelope`: field 1 (key `0x0A`, length-delimited
submessage) present iff `enclosed_at` is `Some`; field 2 (key `0x12`,
length-delimited bytes) skipped when the payload is empty. -/
def encodeEnvelope (env : Envelope) : List Nat :=
  (match env.enclosed_at with
    | some ts => 10 :: (encodeVarint (encodeTimestamp ts).length ++ encodeTimestamp ts)
    | none => []) ++
    (if env.payload = [] then []
      else 18 :: (encodeVarint env.payload.length ++ env.payload))

/-- Skip the value of an unknown non-group field of the given wire type
(prost `skip_field`): varint, fixed 64-bit, length-delimited, fixed
32-bit. -/
def skipScalar (wt : Nat) (bytes : List Nat) : Option (List Nat) :=
  if wt = 0 then (decodeVarint bytes).map (fun p => p.2)
  else if wt = 1 then (if 8 ≤ bytes.length then some (bytes.drop 8) else none)
  else if wt = 2 then
    match decodeVarint bytes with
    | none => none
    | some (len, rest) => if len ≤ rest.length then some (rest.drop len) else none
  else if wt = 5 then (if 4 ≤ bytes.length then some (bytes.drop 4) else none)
  else none

/-- Skip fields until the group opened `depth` levels deep is closed
(prost's group skipping); fuel-driven, one tag consumed per step. -/
def skipGroupLoop : Nat → Nat → List Nat → Option (List Nat)
  | 0, _, _ => none
  | fuel + 1, depth, bytes =>
    if depth = 0 then some bytes
    else
      match decodeVarint bytes with
      | none => none
      | some (key, rest) =>
        if 2 ^ 32 ≤ key then none
        else if key / 8 = 0 ∨ 2 ^ 29 ≤ key / 8 then none
        else if key % 8 = 4 then skipGroupLoop fuel (depth - 1) rest
        else if key % 8 = 3 then skipGroupLoop fuel (depth + 1) rest
        else
          match skipScalar (key % 8) rest with
          | none => none
          | some r => skipGroupLoop fuel depth r

/-- Skip one unknown field value of wire type `wt` (prost `skip_field`); a
bare end-group tag is an error. -/
def skipField (wt : Nat) (bytes : List Nat) : Option (List Nat) :=
  if wt = 3 then skipGroupLoop (bytes.length + 1) 1 bytes
  else if wt = 4 then none
  else skipScalar wt bytes

/-- prost merge loop for a `Timestamp` submessage: starting from `acc`,
read key/value pairs, updating `seconds` (field 1, varint) and `nanos`
(field 2, varint), skipping unknown fields; later occurrences overwrite. -/
def mergeTsLoop : Nat → Timestamp → List Nat → Option Timestamp
  | _, acc, [] => some acc
  | 0, _, _ :: _ => none
  | fuel + 1, acc, b :: rest0 =>
    match decodeVarint (b :: rest0) with
    | none => none
    | some (key, rest) =>
      if 2 ^ 32 ≤ key then none
      else if key / 8 = 0 ∨ 2 ^ 29 ≤ key / 8 then none
      else if key / 8 = 1 then
        if key % 8 = 0 then
          match decodeVarint rest with
          | none => none
          | some (v, r) => mergeTsLoop fuel { acc with seconds := u64ToI64 v } r
        else none
      else if key / 8 = 2 then
        if key % 8 = 0 then
          match decodeVarint rest with
          | none => none
          | some (v, r) => mergeTsLoop fuel { acc with nanos := u64ToI32 v } r
        else none
      else
        match skipField (key % 8) rest with
        | none => none
        | some r => mergeTsLoop fuel acc r

/-- prost merge loop for an `Envelope`: field 1 is a length-delimited
`Timestamp` submessage merged into the existing value (or a default one),
field 2 a length-delimited byte string replacing the payload; unknown
fields are skipped. -/
def mergeEnvLoop : Nat → Envelope → List Nat → Option Envelope
  | _, acc, [] => some acc
  | 0, _, _ :: _ => none
  | fuel + 1, acc, b :: rest0 =>
    match decodeVarint (b :: rest0) with
    | none => none
    | some (key, rest) =>
      if 2 ^ 32 ≤ key then none
      else if key / 8 = 0 ∨ 2 ^ 29 ≤ key / 8 then none
      else if key / 8 = 1 then
        if key % 8 = 2 then
          match decodeVarint rest with
          | none => none
          | some (len, r1) =>
            match readBytes len r1 with
            | none => none
            | some (sub, r2) =>
              match mergeTsLoop sub.length (acc.enclosed_at.getD ⟨0, 0⟩) sub with
              | none => none
              | some ts => mergeEnvLoop fuel { acc with enclosed_at := some ts } r2
        else none
      else if key / 8 = 2 then
        if key % 8 = 2 then
          match decodeVarint rest with
          | none => none
          | some (len, r1) =>
            match readBytes len r1 with
            | none => none
            | some (pl, r2) => mergeEnvLoop fuel { acc with payload := pl } r2
        else none
      else
        match skipField (key % 8) rest with
        | none => none
        | some r => mergeEnvLoop fuel acc r

/-- `Envelope::decode` (prost): start from the default message and merge
the whole buffer. -/
def decodeEnvelope (bytes : List Nat) : Option Envelope :=
  mergeEnvLoop bytes.length ⟨none, []⟩ bytes

/-- `enclose` from `envelope.rs`: build the timestamp from the supplied
nanoseconds (or the current clock reading `now` when absent), wrap the
payload in an `Envelope` with `enclosed_at = Some(timestamp)`, and encode
it. Encoding into a `Vec` cannot fail. -/
def enclose (payload : List Nat) (enclosed_at : Option Int) (now : Timestamp) :
    Except KeelsonError (List Nat) :=
  match enclosed_at with
  | some nanos =>
    match nanos_to_timestamp nanos with
    | .error e => .error e
    | .ok ts => .ok (encodeEnvelope ⟨some ts, payload⟩)
  | none => .ok (encodeEnvelope ⟨some now, payload⟩)

/-- `uncover` from `envelope.rs`: decode the envelope (a failure becomes a
protobuf decode error), record the reception clock reading
`received_at_nanos`, reject an absent `enclosed_at` with
`Error::InvalidTimestamp`, and convert the wire timestamp back to
nanoseconds. -/
def uncover (message : List Nat) (received_at_nanos : Int) :
    Except KeelsonError (Int × Int × List Nat) :=
  match decodeEnvelope message with
  | none => .error (.protobufDecodeError (("failed to decode Protobuf message").toList))
  | some env =>
    match env.enclosed_at with
    | none => .error .invalidTimestamp
    | some ts =>
      match timestamp_to_nanos ts with
      | .error e => .error e
      | .ok n => .ok (received_at_nanos, n, env.payload)

/-! ## Varint round trip -/

theorem encodeVarintAux_irrel : ∀ (f₁ f₂ n : Nat), n < f₁ → n < f₂ →
    encodeVarintAux f₁ n = encodeVarintAux f₂ n := by
  intro f₁
  induction f₁ with
  | zero => intro f₂ n h1 _; omega
  | succ f₁ ih =>
    intro f₂ n h1 h2
    cases f₂ with
    | zero => omega
    | succ f₂ =>
      simp only [encodeVarintAux]
      by_cases hn : n < 128
      · rw [if_pos hn, if_pos hn]
      · rw [if_neg hn, if_neg hn]
        have hd : n / 128 < n := Nat.div_lt_self (by omega) (by omega)
        rw [ih f₂ (n / 128) (by omega) (by omega)]

theorem encodeVarint_eq (n : Nat) :
    encodeVarint n =
      if n < 128 then [n] else (n % 128 + 128) :: encodeVarint (n / 128) := by
  show encodeVarintAux (n + 1) n = _
  simp only [encodeVarintAux]
  by_cases hn : n < 128
  · rw [if_pos hn, if_pos hn]
  · rw [if_neg hn, if_neg hn]
    have hd : n / 128 < n := Nat.div_lt_self (by omega) (by omega)
    rw [encodeVarintAux_irrel n (n / 128 + 1) (n / 128) (by omega) (by omega)]
    rfl

theorem decodeVarintAux_encode : ∀ (rem n : Nat) (rest : List Nat), 1 ≤ rem →
    n < 2 * 128 ^ (rem - 1) →
    decodeVarintAux rem (encodeVarint n ++ rest) = some (n, rest) := by
  intro rem
  induction rem with
  | zero => intro n rest h1 _; omega
  | succ rem ih =>
    intro n rest _ h2
    by_cases hn : n < 128
    · rw [encodeVarint_eq, if_pos hn, List.cons_append, List.nil_append]
      simp only [decodeVarintAux]
      rw [if_pos hn, if_neg]
      rintro ⟨hrem, hb⟩
      subst hrem
      norm_num at h2
      omega
    · rw [encodeVarint_eq, if_neg hn, List.cons_append]
      have hrem1 : 1 ≤ rem := by
        by_contra hc
        have : rem = 0 := by omega
        subst this
        norm_num at h2
        omega
      simp only [decodeVarintAux]
      rw [if_neg (by omega)]
      have hdiv : n / 128 < 2 * 128 ^ (rem - 1) := by
        rw [Nat.div_lt_iff_lt_mul (by omega)]
        calc n < 2 * 128 ^ (rem + 1 - 1) := h2
          _ = 2 * 128 ^ (rem - 1) * 128 := by
            rw [Nat.mul_assoc, ← Nat.pow_succ]
            congr 2
            omega
      rw [ih (n / 128) rest hrem1 hdiv]
      dsimp only
      have : n % 128 + 128 - 128 + 128 * (n / 128) = n := by
        have := Nat.mod_add_div n 128
        omega
      rw [this]

theorem decodeVarint_encode (n : Nat) (rest : List Nat) (h : n < 2 ^ 64) :
    decodeVarint (encodeVarint n ++ rest) = some (n, rest) := by
  apply decodeVarintAux_encode 10 n rest (by omega)
  have h128 : (128 : Nat) ^ 9 = 2 ^ 63 := by norm_num
  omega

theorem encodeVarint_length_le : ∀ (k n : Nat), 1 ≤ k → n < 2 * 128 ^ (k - 1) →
    (encodeVarint n).length ≤ k := by
  intro k
  induction k with
  | zero => intro n h1 _; omega
  | succ k ih =>
    intro n _ h2
    by_cases hn : n < 128
    · rw [encodeVarint_eq, if_pos hn]
      simp
    · rw [encodeVarint_eq, if_neg hn]
      have hk1 : 1 ≤ k := by
        by_contra hc
        have : k = 0 := by omega
        subst this
        norm_num at h2
        omega
      have hdiv : n / 128 < 2 * 128 ^ (k - 1) := by
        rw [Nat.div_lt_iff_lt_mul (by omega)]
        calc n < 2 * 128 ^ (k + 1 - 1) := h2
          _ = 2 * 128 ^ (k - 1) * 128 := by
            rw [Nat.mul_assoc, ← Nat.pow_succ]
            congr 2
            omega
      simpa using Nat.succ_le_succ (ih (n / 128) hk1 hdiv)

theorem encodeVarint_length_le_ten (n : Nat) (h : n < 2 ^ 64) :
    (encodeVarint n).length ≤ 10 := by
  apply encodeVarint_length_le 10 n (by omega)
  have h128 : (128 : Nat) ^ 9 = 2 ^ 63 := by norm_num
  omega

/-! ## Integer casts and the timestamp split -/

theorem toU64_lt (n : Int) : toU64 n < 2 ^ 64 := by
  unfold toU64
  omega

theorem u64ToI64_toU64 (n : Int) (h1 : -(2 ^ 63) ≤ n) (h2 : n < 2 ^ 63) :
    u64ToI64 (toU64 n) = n := by
  unfold u64ToI64 toU64
  split <;> omega

theorem u64ToI32_toU64 (n : Int) (h1 : -(2 ^ 31) ≤ n) (h2 : n < 2 ^ 31) :
    u64ToI32 (toU64 n) = n := by
  unfold u64ToI32 toU64
  split <;> omega

theorem tmod_1e9_bounds (n : Int) :
    -1000000000 < n.tmod 1000000000 ∧ n.tmod 1000000000 < 1000000000 := by
  cases n with
  | ofNat m =>
    rw [show Int.tmod (Int.ofNat m) (1000000000 : Int) = Int.ofNat (m % 1000000000) from rfl,
      Int.ofNat_eq_coe]
    omega
  | negSucc m =>
    rw [show Int.tmod (Int.negSucc m) (1000000000 : Int) =
      -Int.ofNat ((m + 1) % 1000000000) from rfl, Int.ofNat_eq_coe]
    omega

theorem nanos_to_timestamp_tdiv_tmod (n : Int) :
    nanos_to_timestamp n = .ok ⟨n.tdiv 1000000000, n.tmod 1000000000⟩ := by
  have hb := tmod_1e9_bounds n
  unfold nanos_to_timestamp
  rw [show wrap32 (n.tmod 1000000000) = n.tmod 1000000000 from by unfold wrap32; omega]

theorem timestamp_to_nanos_recompose (n : Int) (h1 : -(2 ^ 63) ≤ n) (h2 : n < 2 ^ 63) :
    timestamp_to_nanos ⟨n.tdiv 1000000000, n.tmod 1000000000⟩ = .ok n := by
  unfold timestamp_to_nanos
  rw [show n.tdiv 1000000000 * 1000000000 + n.tmod 1000000000 = n from
    Int.tdiv_add_tmod' n 1000000000]
  rw [show wrap64 n = n from by unfold wrap64; omega]

/-- C5: for every `i64` nanosecond value `n`, the wire conversion produces
`seconds = n / 1e9` (truncation toward zero) and `nanos = n % 1e9` (the
`as i32` cast losing nothing), and recomposition gives back exactly `n`,
including for negative `n`. -/
theorem claim_C5_timestamp_split (n : Int) (h1 : -(2 ^ 63) ≤ n) (h2 : n < 2 ^ 63) :
    nanos_to_timestamp n = .ok ⟨n.tdiv 1000000000, n.tmod 1000000000⟩ ∧
    timestamp_to_nanos ⟨n.tdiv 1000000000, n.tmod 1000000000⟩ = .ok n :=
  ⟨nanos_to_timestamp_tdiv_tmod n, timestamp_to_nanos_recompose n h1 h2⟩

/-- C5 witness: the split and the exact recomposition at a concrete negative
value. -/
theorem claim_C5_witness :
    nanos_to_timestamp (-1234567890123456789) = .ok ⟨-1234567890, -123456789⟩ ∧
    timestamp_to_nanos ⟨-1234567890, -123456789⟩ = .ok (-1234567890123456789) := by
  have h := claim_C5_timestamp_split (-1234567890123456789) (by norm_num) (by norm_num)
  have he : (⟨Int.tdiv (-1234567890123456789) 1000000000,
      Int.tmod (-1234567890123456789) 1000000000⟩ : Timestamp) =
      ⟨-1234567890, -123456789⟩ := by decide
  exact ⟨h.1.trans (congrArg Except.ok he), he ▸ h.2⟩

/-! ## Decoding an encoded envelope -/

theorem encodeTimestamp_length_le (ts : Timestamp) : (encodeTimestamp ts).length ≤ 22 := by
  have l1 := encodeVarint_length_le_ten (toU64 ts.seconds) (toU64_lt _)
  have l2 := encodeVarint_length_le_ten (toU64 ts.nanos) (toU64_lt _)
  unfold encodeTimestamp
  by_cases hA : ts.seconds = 0 <;> by_cases hB : ts.nanos = 0 <;>
    simp [hA, hB] <;> omega

theorem mergeTs_sec_step (fuel : Nat) (acc : Timestamp) (v : Nat) (rest : List Nat)
    (hv : v < 2 ^ 64) :
    mergeTsLoop (fuel + 1) acc ((8 :: encodeVarint v) ++ rest) =
      mergeTsLoop fuel { acc with seconds := u64ToI64 v } rest := by
  rw [List.cons_append]
  simp only [mergeTsLoop]
  rw [show (8 : Nat) :: (encodeVarint v ++ rest) =
    encodeVarint 8 ++ (encodeVarint v ++ rest) from rfl]
  rw [decodeVarint_encode 8 _ (by norm_num)]
  dsimp only
  norm_num
  rw [decodeVarint_encode v rest hv]

theorem mergeTs_nanos_step (fuel : Nat) (acc : Timestamp) (v : Nat) (rest : List Nat)
    (hv : v < 2 ^ 64) :
    mergeTsLoop (fuel + 1) acc ((16 :: encodeVarint v) ++ rest) =
      mergeTsLoop fuel { acc with nanos := u64ToI32 v } rest := by
  rw [List.cons_append]
  simp only [mergeTsLoop]
  rw [show (16 : Nat) :: (encodeVarint v ++ rest) =
    encodeVarint 16 ++ (encodeVarint v ++ rest) from rfl]
  rw [decodeVarint_encode 16 _ (by norm_num)]
  dsimp only
  norm_num
  rw [decodeVarint_encode v rest hv]

theorem mergeTs_encode (ts : Timestamp) (fuel : Nat)
    (h1 : -(2 ^ 63) ≤ ts.seconds) (h2 : ts.seconds < 2 ^ 63)
    (h3 : -(2 ^ 31) ≤ ts.nanos) (h4 : ts.nanos < 2 ^ 31)
    (hfuel : (encodeTimestamp ts).length ≤ fuel) :
    mergeTsLoop fuel ⟨0, 0⟩ (encodeTimestamp ts) = some ts := by
  obtain ⟨s, n⟩ := ts
  simp only at h1 h2 h3 h4
  by_cases hs : s = 0 <;> by_cases hn : n = 0
  · subst hs hn
    rw [show encodeTimestamp ⟨0, 0⟩ = [] from by unfold encodeTimestamp; simp]
    cases fuel <;> rfl
  · subst hs
    have henc : encodeTimestamp ⟨0, n⟩ = (16 :: encodeVarint (toU64 n)) ++ [] := by
      unfold encodeTimestamp
      simp [hn]
    rw [henc] at hfuel ⊢
    simp only [List.append_nil, List.length_cons] at hfuel
    obtain ⟨f, hf⟩ : ∃ f, fuel = f + 1 := ⟨fuel - 1, by omega⟩
    subst hf
    rw [mergeTs_nanos_step f ⟨0, 0⟩ (toU64 n) [] (toU64_lt n)]
    rw [show mergeTsLoop f { seconds := 0, nanos := u64ToI32 (toU64 n) } [] =
      some { seconds := 0, nanos := u64ToI32 (toU64 n) } from by cases f <;> rfl]
    rw [u64ToI32_toU64 n h3 h4]
  · subst hn
    have henc : encodeTimestamp ⟨s, 0⟩ = (8 :: encodeVarint (toU64 s)) ++ [] := by
      unfold encodeTimestamp
      simp [hs]
    rw [henc] at hfuel ⊢
    simp only [List.append_nil, List.length_cons] at hfuel
    obtain ⟨f, hf⟩ : ∃ f, fuel = f + 1 := ⟨fuel - 1, by omega⟩
    subst hf
    rw [mergeTs_sec_step f ⟨0, 0⟩ (toU64 s) [] (toU64_lt s)]
    rw [show mergeTsLoop f { seconds := u64ToI64 (toU64 s), nanos := 0 } [] =
      some { seconds := u64ToI64 (toU64 s), nanos := 0 } from by cases f <;> rfl]
    rw [u64ToI64_toU64 s h1 h2]
  · have henc : encodeTimestamp ⟨s, n⟩ =
        (8 :: encodeVarint (toU64 s)) ++ ((16 :: encodeVarint (toU64 n)) ++ []) := by
      unfold encodeTimestamp
      simp [hs, hn]
    rw [henc] at hfuel ⊢
    simp only [List.append_nil, List.length_cons, List.length_append] at hfuel
    obtain ⟨f, hf⟩ : ∃ f, fuel = f + 1 + 1 := ⟨fuel - 2, by omega⟩
    subst hf
    rw [mergeTs_sec_step (f + 1) ⟨0, 0⟩ (toU64 s) _ (toU64_lt s),
      mergeTs_nanos_step f _ (toU64 n) [] (toU64_lt n)]
    rw [show mergeTsLoop f { seconds := u64ToI64 (toU64 s), nanos := u64ToI32 (toU64 n) } [] =
      some { seconds := u64ToI64 (toU64 s), nanos := u64ToI32 (toU64 n) } from by
        cases f <;> rfl]
    rw [u64ToI64_toU64 s h1 h2, u64ToI32_toU64 n h3 h4]

theorem mergeEnvLoop_nil (fuel : Nat) (acc : Envelope) : mergeEnvLoop fuel acc [] = some acc := by
  cases fuel <;> rfl

theorem mergeEnv_ts_step (fuel : Nat) (acc : Envelope) (ts : Timestamp) (rest : List Nat)
    (hacc : acc.enclosed_at = none)
    (h1 : -(2 ^ 63) ≤ ts.seconds) (h2 : ts.seconds < 2 ^ 63)
    (h3 : -(2 ^ 31) ≤ ts.nanos) (h4 : ts.nanos < 2 ^ 31) :
    mergeEnvLoop (fuel + 1) acc
      ((10 :: (encodeVarint (encodeTimestamp ts).length ++ encodeTimestamp ts)) ++ rest) =
      mergeEnvLoop fuel { acc with enclosed_at := some ts } rest := by
  have hL : (encodeTimestamp ts).length < 2 ^ 64 := by
    have := encodeTimestamp_length_le ts
    omega
  rw [List.cons_append, List.append_assoc]
  simp only [mergeEnvLoop]
  rw [show (10 : Nat) :: (encodeVarint (encodeTimestamp ts).length ++
      (encodeTimestamp ts ++ rest)) =
    encodeVarint 10 ++ (encodeVarint (encodeTimestamp ts).length ++
      (encodeTimestamp ts ++ rest)) from rfl]
  rw [decodeVarint_encode 10 _ (by norm_num)]
  dsimp only
  norm_num
  rw [decodeVarint_encode (encodeTimestamp ts).length _ hL]
  dsimp only
  rw [show readBytes (encodeTimestamp ts).length (encodeTimestamp ts ++ rest) =
    some (encodeTimestamp ts, rest) from by
      unfold readBytes
      rw [if_pos (by simp), List.take_left, List.drop_left]]
  dsimp only
  rw [hacc]
  rw [show (Option.getD (none : Option Timestamp) ⟨0, 0⟩) = ⟨0, 0⟩ from rfl]
  rw [mergeTs_encode ts (encodeTimestamp ts).length h1 h2 h3 h4 le_rfl]

theorem mergeEnv_payload_step (fuel : Nat) (acc : Envelope) (p rest : List Nat)
    (hp : p.length < 2 ^ 64) :
    mergeEnvLoop (fuel + 1) acc ((18 :: (encodeVarint p.length ++ p)) ++ rest) =
      mergeEnvLoop fuel { acc with payload := p } rest := by
  rw [List.cons_append, List.append_assoc]
  simp only [mergeEnvLoop]
  rw [show (18 : Nat) :: (encodeVarint p.length ++ (p ++ rest)) =
    encodeVarint 18 ++ (encodeVarint p.length ++ (p ++ rest)) from rfl]
  rw [decodeVarint_encode 18 _ (by norm_num)]
  dsimp only
  norm_num
  rw [decodeVarint_encode p.length _ hp]
  dsimp only
  rw [show readBytes p.length (p ++ rest) = some (p, rest) from by
    unfold readBytes
    rw [if_pos (by simp), List.take_left, List.drop_left]]

theorem decodeEnvelope_encode (ts : Timestamp) (p : List Nat)
    (h1 : -(2 ^ 63) ≤ ts.seconds) (h2 : ts.seconds < 2 ^ 63)
    (h3 : -(2 ^ 31) ≤ ts.nanos) (h4 : ts.nanos < 2 ^ 31)
    (hp : p.length < 2 ^ 64) :
    decodeEnvelope (encodeEnvelope ⟨some ts, p⟩) = some ⟨some ts, p⟩ := by
  have henc : encodeEnvelope ⟨some ts, p⟩ =
      (10 :: (encodeVarint (encodeTimestamp ts).length ++ encodeTimestamp ts)) ++
        (if p = [] then [] else 18 :: (encodeVarint p.length ++ p)) := rfl
  unfold decodeEnvelope
  rw [henc]
  by_cases hpe : p = []
  · subst hpe
    rw [if_pos rfl, List.append_nil]
    rw [show ((10 : Nat) :: (encodeVarint (encodeTimestamp ts).length ++
        encodeTimestamp ts)).length =
      (encodeVarint (encodeTimestamp ts).length ++ encodeTimestamp ts).length + 1 from by
        simp]
    rw [show (10 : Nat) :: (encodeVarint (encodeTimestamp ts).length ++ encodeTimestamp ts) =
      (10 :: (encodeVarint (encodeTimestamp ts).length ++ encodeTimestamp ts)) ++ [] from by
        simp]
    rw [mergeEnv_ts_step _ ⟨none, []⟩ ts [] rfl h1 h2 h3 h4, mergeEnvLoop_nil]
  · rw [if_neg hpe]
    obtain ⟨f, hf⟩ : ∃ f, ((10 :: (encodeVarint (encodeTimestamp ts).length ++
        encodeTimestamp ts)) ++ (18 :: (encodeVarint p.length ++ p))).length = f + 1 + 1 :=
      ⟨((10 :: (encodeVarint (encodeTimestamp ts).length ++ encodeTimestamp ts)) ++
        (18 :: (encodeVarint p.length ++ p))).length - 2, by simp; omega⟩
    rw [hf, mergeEnv_ts_step (f + 1) ⟨none, []⟩ ts _ rfl h1 h2 h3 h4]
    rw [show (18 : Nat) :: (encodeVarint p.length ++ p) =
      (18 :: (encodeVarint p.length ++ p)) ++ [] from (List.append_nil _).symm]
    rw [mergeEnv_payload_step f _ p [] hp, mergeEnvLoop_nil]

theorem tdiv_1e9_bounds (n : Int) (h1 : -(2 ^ 63) ≤ n) (h2 : n < 2 ^ 63) :
    -(2 ^ 63) ≤ n.tdiv 1000000000 ∧ n.tdiv 1000000000 < 2 ^ 63 := by
  cases n with
  | ofNat m =>
    rw [show Int.tdiv (Int.ofNat m) (1000000000 : Int) =
      Int.ofNat (m / 1000000000) from rfl, Int.ofNat_eq_coe]
    rw [show Int.ofNat m = (m : Int) from rfl] at h2
    omega
  | negSucc m =>
    rw [show Int.tdiv (Int.negSucc m) (1000000000 : Int) =
      -Int.ofNat ((m + 1) / 1000000000) from rfl, Int.ofNat_eq_coe]
    rw [Int.negSucc_eq] at h1 h2
    omega

/-! ## Claim theorems: envelope codec -/

/-- C1: for every byte sequence `p` and every `i64` timestamp `t`,
`uncover (enclose p (Some t))` succeeds, returning `enclosed_at = t` and
`payload = p` (with the clock readings passed in explicitly: `now` is unused
on this path and `recv` is returned as `received_at`). -/
theorem claim_C1_envelope_roundtrip (p : List Nat) (t : Int) (now : Timestamp) (recv : Int)
    (hp1 : p.length < 2 ^ 64) (hp2 : ∀ b ∈ p, b < 256)
    (h1 : -(2 ^ 63) ≤ t) (h2 : t < 2 ^ 63) :
    ∃ msg, enclose p (some t) now = .ok msg ∧ uncover msg recv = .ok (recv, t, p) := by
  have hdb := tdiv_1e9_bounds t h1 h2
  have hmb := tmod_1e9_bounds t
  refine ⟨encodeEnvelope ⟨some ⟨t.tdiv 1000000000, t.tmod 1000000000⟩, p⟩, ?_, ?_⟩
  · unfold enclose
    dsimp only
    rw [nanos_to_timestamp_tdiv_tmod t]
  · unfold uncover
    rw [decodeEnvelope_encode ⟨t.tdiv 1000000000, t.tmod 1000000000⟩ p
      hdb.1 hdb.2 (by simp only; omega) (by simp only; omega) hp1]
    dsimp only
    rw [timestamp_to_nanos_recompose t h1 h2]

/-- C1 witness: the round trip at a concrete payload and a concrete negative
timestamp. -/
theorem claim_C1_witness :
    ∃ msg, enclose [104, 105] (some (-1)) ⟨0, 0⟩ = .ok msg ∧
      uncover msg 7 = .ok (7, -1, [104, 105]) :=
  claim_C1_envelope_roundtrip [104, 105] (-1) ⟨0, 0⟩ 7 (by decide) (by decide)
    (by norm_num) (by norm_num)

/-- C4: any byte sequence that decodes as a well-formed `Envelope` whose
`enclosed_at` field is absent makes `uncover` fail with
`Error::InvalidTimestamp`; no success value with an absent enclosure
timestamp is ever returned. -/
theorem claim_C4_missing_timestamp (bytes : List Nat) (env : Envelope) (recv : Int)
    (hdec : decodeEnvelope bytes = some env) (hts : env.enclosed_at = none) :
    uncover bytes recv = .error .invalidTimestamp := by
  unfold uncover
  rw [hdec]
  dsimp only
  rw [hts]

/-- C4 witness: a wire message carrying only a payload field decodes, and
`uncover` rejects it with the timestamp error. -/
theorem claim_C4_witness :
    uncover [18, 3, 97, 98, 99] 0 = .error .invalidTimestamp :=
  claim_C4_missing_timestamp [18, 3, 97, 98, 99] ⟨none, [97, 98, 99]⟩ 0 (by decide) rfl
